import Mathlib

/-!
Verification of the CapCut Version Guard protection-sequence engine.

This file is a shallow embedding of the core logic of the repository:

* `src/src/main.rs` — the eframe/egui GUI revision (`scan_versions`,
  `clean_versions`, `lock_configuration`, `run_fix_sequence`, ...);
* `src/src-tauri/src/commands/scanner.rs` — the Tauri scanner commands;
* `src/src-tauri/src/commands/protector.rs` — the Tauri protection commands
  (`delete_versions`, `apply_protection`, `apply_protection_with_options`,
  `run_full_protection`).

Pure text processing (the `human_sort` comparator, Rust's `str::lines`,
the `configure.ini` rewrite) is embedded as executable functions on
`List Char` / `String`.  Filesystem- and process-touching code is embedded
as functions over an explicit environment `Env` of oracles (one oracle per
fallible OS primitive, giving that call's outcome), and every attempted
filesystem mutation is recorded in an explicit `FsAction` trace, so that
claims about "no mutation happens" or "earlier deletions are not rolled
back" become statements about the returned trace.
-/

/-! ## Character-level comparators -/

/-- Rust `char::cmp`: comparison of Unicode scalar values.  -/
def cmpChar (a b : Char) : Ordering :=
  if a.toNat < b.toNat then .lt else if b.toNat < a.toNat then .gt else .eq

/-- Rust `String::cmp` (used by `scanner.rs` `scan_versions` as
`a.name.cmp(&b.name)`): lexicographic comparison.  Rust compares the UTF-8
bytes, which orders exactly like the scalar values compared here. -/
def lexCompareChars : List Char → List Char → Ordering
  | [], [] => .eq
  | [], _ :: _ => .lt
  | _ :: _, [] => .gt
  | x :: xs, y :: ys =>
    match cmpChar x y with
    | .eq => lexCompareChars xs ys
    | o => o

/-- Plain lexical string comparison, `a.cmp(&b)` on Rust strings. -/
def lexCompare (a b : String) : Ordering :=
  lexCompareChars a.data b.data

/-- Model of `human_sort::take_numeric`: consume the leading ASCII-digit run and
accumulate its value (`u32` arithmetic in the source, hence the wrap at
`2 ^ 32`, the release-mode overflow behaviour). -/
def takeNumeric : List Char → Nat → Nat
  | c :: cs, acc =>
    if c.isDigit then takeNumeric cs ((acc * 10 + (c.toNat - 48)) % 4294967296)
    else acc
  | [], acc => acc

/-- Model of `human_sort::compare_chars_iters`: walk both strings; identical heads are
consumed, two differing digit heads compare the whole numeric runs
numerically, other differing heads compare as characters; when at least one
side is exhausted the remaining lengths are compared (the `Err` branch,
which `human_sort::compare` unwraps to the same `Ordering`). -/
def humanCompareChars : List Char → List Char → Ordering
  | x :: xs, y :: ys =>
    if x = y then humanCompareChars xs ys
    else if x.isDigit && y.isDigit then
      compare (takeNumeric (x :: xs) 0) (takeNumeric (y :: ys) 0)
    else cmpChar x y
  | xs, ys => compare xs.length ys.length

/-- Model of `human_sort::compare`, the natural comparator used by the egui revision
(`main.rs` `scan_versions` and `clean_versions`). -/
def humanCompare (a b : String) : Ordering :=
  humanCompareChars a.data b.data

/-- Stable insertion of `a` into `l`: `a` is placed before the first
element it is not `Greater` than. -/
def insertByCmp (cmp : α → α → Ordering) (a : α) : List α → List α
  | [] => [a]
  | b :: bs => if cmp a b = .gt then b :: insertByCmp cmp a bs else a :: b :: bs

/-- Rust `slice::sort_by` with a three-way comparator: Rust specifies
precisely "a stable sort" by the comparator, and every stable sort of a
total preorder comparator returns the same list, so the model uses stable
insertion sort. -/
def rustSortBy (cmp : α → α → Ordering) : List α → List α
  | [] => []
  | a :: as => insertByCmp cmp a (rustSortBy cmp as)

/-- A list is ascending for the comparator `cmp`: no element is `Greater`
than a later one. -/
def AscendingBy (cmp : α → α → Ordering) (l : List α) : Prop :=
  l.Pairwise (fun a b => cmp a b ≠ .gt)

/-! ## Rust `str` helpers used by the config rewrite -/

/-- Rust `char::is_whitespace`: the Unicode `White_Space` property. -/
def rustIsWhitespace (c : Char) : Bool :=
  (0x09 ≤ c.toNat && c.toNat ≤ 0x0d) || c.toNat = 0x20 || c.toNat = 0x85 ||
  c.toNat = 0xa0 || c.toNat = 0x1680 ||
  (0x2000 ≤ c.toNat && c.toNat ≤ 0x200a) ||
  c.toNat = 0x2028 || c.toNat = 0x2029 || c.toNat = 0x202f ||
  c.toNat = 0x205f || c.toNat = 0x3000

/-- Rust `str::trim`: drop leading and trailing whitespace. -/
def rustTrimChars (l : List Char) : List Char :=
  ((l.dropWhile rustIsWhitespace).reverse.dropWhile rustIsWhitespace).reverse

/-- Split a character sequence at every `'\n'`; total, never returns `[]`
(the empty input gives one empty segment, like Rust `str::split`). -/
def splitNl : List Char → List (List Char)
  | [] => [[]]
  | c :: cs =>
    if c = '\n' then [] :: splitNl cs
    else
      match splitNl cs with
      | s :: rest => (c :: s) :: rest
      | [] => [[c]]

/-- Join segments with `'\n'` (Rust `Vec::join("\n")`). -/
def joinNl : List (List Char) → List Char
  | [] => []
  | [l] => l
  | l :: m :: rest => l ++ '\n' :: joinNl (m :: rest)

/-- Remove one trailing `'\r'` if present (the half of a `"\r\n"` line
terminator that Rust `str::lines` strips). -/
def stripTrailingCR (l : List Char) : List Char :=
  if l.getLast? = some '\x0d' then l.dropLast else l

/-- Rust `str::lines`: split at `'\n'`, strip one `'\r'` before each such
split point, and do not yield a final empty line when the text ends with a
line terminator. -/
def rustLinesChars (cs : List Char) : List (List Char) :=
  let segs := splitNl cs
  match segs.getLast? with
  | some last =>
    let init := segs.dropLast.map stripTrailingCR
    if last.isEmpty then init else init ++ [last]
  | none => []

/-- Rust `str::lines` on a `String`. -/
def rustLines (s : String) : List String :=
  (rustLinesChars s.data).map String.mk

/-! ## The config rewrite (`lock_configuration`, pure part)

`protector.rs` lines 44–70 and `main.rs` lines 928–948 contain the same
text transformation; this is its pure content-to-content core. -/

/-- The replacement line written by `lock_configuration`. -/
def replLine : List Char := "last_version=1.0.0.0".data

/-- Does a line trigger replacement: `line.trim().starts_with("last_version")`. -/
def matchesLastVersion (l : List Char) : Bool :=
  "last_version".data.isPrefixOf (rustTrimChars l)

/-- What one loop iteration of `lock_configuration` pushes for a line. -/
def lockLine (l : List Char) : List Char :=
  if matchesLastVersion l then replLine else l

/-- The `for line in content.lines()` loop of `lock_configuration`:
returns the pushed lines and the `found` flag. -/
def lockLoop : List (List Char) → List (List Char) × Bool
  | [] => ([], false)
  | l :: ls =>
    let r := lockLoop ls
    if matchesLastVersion l then (replLine :: r.1, true) else (l :: r.1, r.2)

/-- The line list `lock_configuration` writes back: the loop output, with the
replacement line appended when no line matched. -/
def lockRewriteLines (ls : List (List Char)) : List (List Char) :=
  let r := lockLoop ls
  if r.2 then r.1 else r.1 ++ [replLine]

/-- The full pure rewrite `lock_configuration` applies to the config file's
text: split into lines, rewrite them, join with `"\n"`. -/
def lockRewrite (content : String) : String :=
  ⟨joinNl (lockRewriteLines (rustLinesChars content.data))⟩

/-! ## Scanner data model -/

/-- Model of `VersionInfo` (`scanner.rs` lines 10–15, `main.rs` lines 42–47): one
installed version directory.  The source stores the size as
`bytes / 1048576` in an `f64`; the model keeps the raw recursive byte sum
(`calculate_dir_size`), which determines it — no claim concerns the size. -/
structure VersionInfo where
  name : String
  path : String
  sizeBytes : Nat
deriving Repr, DecidableEq

/-! ## Filesystem environment and action traces

Filesystem- and process-touching code is embedded over an environment of
oracles: one field per OS primitive the core calls, giving the outcome the
platform produces for that call (`none` = success, `some e` = the error
text).  Every attempted mutation is recorded in an `FsAction` trace. -/

/-- One attempted filesystem mutation. -/
inductive FsAction where
  /-- `unset_readonly_recursive(p)`: best-effort recursive clearing of the
  read-only bit below `p`. -/
  | unsetReadonly (path : String)
  /-- `fs::remove_dir_all(p)`. -/
  | removeDirAll (path : String)
  /-- `fs::remove_file(p)`. -/
  | removeFile (path : String)
  /-- `fs::write(p, contents)`. -/
  | writeFile (path : String) (contents : String)
  /-- `fs::create_dir_all(p)`. -/
  | createDirAll (path : String)
  /-- `Command::new("attrib").arg("+r").arg(p)`. -/
  | attribReadonly (path : String)
  /-- the opaque mutations of `cleaner::clean_cache()` (module not part of
  the core sources). -/
  | cacheClean
deriving Repr, DecidableEq

/-- Model of `ProtectionResult` (`protector.rs` lines 87–92). -/
structure ProtectionResult where
  success : Bool
  error : Option String
  logs : List String
deriving Repr, DecidableEq

/-- The platform environment: the process-inspection collaborator, the
`LOCALAPPDATA` variable, and one oracle per fallible filesystem primitive
(`none` = the call succeeds, `some e` = it fails with error text `e`). -/
structure Env where
  /-- `process::is_capcut_running()` / the `sysinfo` process check. -/
  isCapcutRunning : Bool
  /-- `std::env::var("LOCALAPPDATA")`, `none` when absent. -/
  localAppData : Option String
  /-- `Path::exists`. -/
  pathExists : String → Bool
  /-- `Path::is_dir`. -/
  isDir : String → Bool
  /-- names of the immediate subdirectories `fs::read_dir` yields
  (already filtered to `is_dir`, as the source does). -/
  subdirs : String → List String
  /-- `calculate_dir_size`: recursive byte sum under a path. -/
  dirSize : String → Nat
  /-- outcome of the `fs::read_dir` call itself. -/
  readDirErr : String → Option String
  /-- outcome of `fs::remove_dir_all`. -/
  removeDirAllErr : String → Option String
  /-- outcome of `fs::remove_file`. -/
  removeFileErr : String → Option String
  /-- outcome of `fs::write`. -/
  writeFileErr : String → Option String
  /-- outcome of `fs::create_dir_all`. -/
  createDirAllErr : String → Option String
  /-- outcome of spawning `attrib` (`Command::output`, which errs only when
  the command cannot run; its exit status is ignored by the source). -/
  attribErr : String → Option String
  /-- `fs::read_to_string` on a path, `none` when the read fails. -/
  readFile : String → Option String
  /-- the result `cleaner::clean_cache()` returns (the `cleaner` module is
  an external collaborator; only its `ProtectionResult` shape is used). -/
  cacheResult : ProtectionResult

/-- Model of `PathBuf::join`, modelled as separator concatenation. -/
def pjoin (a b : String) : String := a ++ "/" ++ b

/-- Model of `Path::file_name().unwrap_or_default()`: the component after the last
separator (for ordinary paths without trailing separators or dot
components, which is how every caller in the source builds paths). -/
def fileName (p : String) : String :=
  ⟨p.data.foldl (fun acc c => if c = '/' then [] else acc ++ [c]) []⟩

/-! ## Scanning (`scanner.rs` and `main.rs`) -/

/-- Build the `VersionInfo` records for the subdirectories of `apps`,
before sorting (shared by both `scan_versions` revisions).  `read_dir`
failures are swallowed (`.ok()` / `filter_map(|e| e.ok())`): they yield an
empty listing, not an error. -/
def scanEntries (env : Env) (apps : String) : List VersionInfo :=
  if (env.readDirErr apps).isSome then []
  else
    (env.subdirs apps).map fun n =>
      { name := n, path := pjoin apps n, sizeBytes := env.dirSize (pjoin apps n) }

/-- Model of `scanner.rs` `scan_versions` (lines 110–146): derive the apps path from
`LOCALAPPDATA`; a missing variable or missing directory yields an empty
list; sort **by plain string comparison** (`a.name.cmp(&b.name)`, source
line 140). -/
def scannerScanVersions (env : Env) : List VersionInfo :=
  match env.localAppData with
  | none => []
  | some la =>
    let apps := pjoin (pjoin la "CapCut") "Apps"
    if env.pathExists apps then
      rustSortBy (fun a b => lexCompare a.name b.name) (scanEntries env apps)
    else []

/-- Model of `main.rs` `scan_versions` (lines 868–893): scan a given apps path;
missing path yields an empty list; sort by `human_sort::compare` on the
name (source line 891). -/
def mainScanVersions (env : Env) (appsPath : String) : List VersionInfo :=
  if env.pathExists appsPath then
    rustSortBy (fun a b => humanCompare a.name b.name) (scanEntries env appsPath)
  else []

/-! ## The heuristic retention pass (`main.rs` `clean_versions`, lines 906–926) -/

/-- Model of `clean_versions`: list the subdirectories (a `read_dir` failure here is a
hard error), sort them by `human_sort::compare` on the file name, and when
more than one exists delete the **last** one (the newest under the natural
order).  Returns the outcome together with the trace of attempted
mutations. -/
def cleanVersions (env : Env) (appsPath : String) :
    Except String Unit × List FsAction :=
  match env.readDirErr appsPath with
  | some e => (.error e, [])
  | none =>
    let dirs := (env.subdirs appsPath).map (pjoin appsPath)
    let sorted := rustSortBy (fun a b => humanCompare (fileName a) (fileName b)) dirs
    if sorted.length > 1 then
      match sorted.getLast? with
      | some victim =>
        match env.removeDirAllErr victim with
        | some e =>
          (.error ("Failed to delete \"" ++ victim ++ "\": " ++ e),
           [.unsetReadonly victim, .removeDirAll victim])
        | none => (.ok (), [.unsetReadonly victim, .removeDirAll victim])
      | none => (.ok (), [])
    else (.ok (), [])

/-! ## Protection primitives (`protector.rs`) -/

/-- Model of `create_readonly` (`protector.rs` lines 25–41): if the path exists,
best-effort clear read-only bits below it and remove it (directory or
file); then write an empty file there and mark it read-only via `attrib`.
Returns the outcome and the attempted mutations. -/
def createReadonly (env : Env) (path : String) :
    Except String Unit × List FsAction :=
  let pre : Except String Unit × List FsAction :=
    if env.pathExists path then
      if env.isDir path then
        match env.removeDirAllErr path with
        | some e => (.error e, [.unsetReadonly path, .removeDirAll path])
        | none => (.ok (), [.unsetReadonly path, .removeDirAll path])
      else
        match env.removeFileErr path with
        | some e => (.error e, [.unsetReadonly path, .removeFile path])
        | none => (.ok (), [.unsetReadonly path, .removeFile path])
    else (.ok (), [])
  match pre with
  | (.error e, acts) => (.error e, acts)
  | (.ok _, acts) =>
    match env.writeFileErr path with
    | some e => (.error e, acts ++ [.writeFile path ""])
    | none =>
      match env.attribErr path with
      | some e => (.error e, acts ++ [.writeFile path "", .attribReadonly path])
      | none => (.ok (), acts ++ [.writeFile path "", .attribReadonly path])

/-- Model of `lock_configuration` (`protector.rs` lines 44–70): read the existing
`configure.ini` if present (an unreadable file counts as empty), apply the
pure rewrite `lockRewrite`, and write the result back. -/
def lockConfiguration (env : Env) (appsPath : String) :
    Except String Unit × List FsAction :=
  let configPath := pjoin appsPath "configure.ini"
  let content :=
    if env.pathExists configPath then (env.readFile configPath).getD "" else ""
  let newContent := lockRewrite content
  match env.writeFileErr configPath with
  | some e => (.error e, [.writeFile configPath newContent])
  | none => (.ok (), [.writeFile configPath newContent])

/-- Model of `create_dummy_files` (`protector.rs` lines 73–84): read-only blocker at
`Apps/ProductInfo.xml`, then `User Data/Download` is created, then a
read-only blocker at `Download/update.exe`. -/
def createDummyFiles (env : Env) (capcutPath appsPath : String) :
    Except String Unit × List FsAction :=
  match createReadonly env (pjoin appsPath "ProductInfo.xml") with
  | (.error e, acts) => (.error e, acts)
  | (.ok _, acts1) =>
    let downloadDir := pjoin (pjoin capcutPath "User Data") "Download"
    match env.createDirAllErr downloadDir with
    | some e => (.error e, acts1 ++ [.createDirAll downloadDir])
    | none =>
      match createReadonly env (pjoin downloadDir "update.exe") with
      | (.error e, acts2) => (.error e, acts1 ++ [.createDirAll downloadDir] ++ acts2)
      | (.ok _, acts2) => (.ok (), acts1 ++ [.createDirAll downloadDir] ++ acts2)

/-! ## `delete_versions` (`protector.rs` lines 96–128) -/

/-- The `for path_str in &paths` loop of `delete_versions`: log the name,
best-effort clear read-only bits, attempt `remove_dir_all`; the first
failure aborts with the message naming the directory and cause.  Returns
either the failure (message, logs so far, trace so far) or the logs and
trace of the completed loop. -/
def deleteLoop (env : Env) :
    List String → Except (String × List String × List FsAction) (List String × List FsAction)
  | [] => .ok ([], [])
  | p :: rest =>
    let name := fileName p
    match env.removeDirAllErr p with
    | some e =>
      .error ("Failed to delete " ++ name ++ ": " ++ e,
              ["Deleting: " ++ name],
              [.unsetReadonly p, .removeDirAll p])
    | none =>
      match deleteLoop env rest with
      | .ok (logs, acts) =>
        .ok (("Deleting: " ++ name) :: logs,
             .unsetReadonly p :: .removeDirAll p :: acts)
      | .error (e, logs, acts) =>
        .error (e, ("Deleting: " ++ name) :: logs,
                .unsetReadonly p :: .removeDirAll p :: acts)

/-- Model of `delete_versions`: run the loop; on failure return a failed
`ProtectionResult` carrying the accumulated logs; on success append the
closing `[OK]` log line. -/
def deleteVersions (env : Env) (paths : List String) :
    ProtectionResult × List FsAction :=
  match deleteLoop env paths with
  | .error (e, logs, acts) =>
    ({ success := false, error := some e, logs := logs }, acts)
  | .ok (logs, acts) =>
    let logs :=
      if paths.isEmpty then logs ++ ["[OK] No versions to delete"]
      else logs ++ ["[OK] Deleted " ++ toString paths.length ++ " version(s)"]
    ({ success := true, error := none, logs := logs }, acts)

/-! ## `apply_protection` variants (`protector.rs` lines 132–227) -/

/-- Model of `apply_protection_with_options` (`protector.rs` lines 177–227): derive
the apps path from `LOCALAPPDATA` (absence is a hard failure), then lock
the config and create the blockers, each stage individually disableable
with a "skipped (disabled)" log entry. -/
def applyProtectionWithOptions (env : Env) (lockConfig createBlockers : Bool) :
    ProtectionResult × List FsAction :=
  match env.localAppData with
  | none =>
    ({ success := false, error := some "Failed to get LOCALAPPDATA", logs := [] }, [])
  | some la =>
    let appsPath := pjoin (pjoin la "CapCut") "Apps"
    let capcutRoot := pjoin la "CapCut"
    let step1 : Except String Unit × List String × List FsAction :=
      if lockConfig then
        match lockConfiguration env appsPath with
        | (.error e, acts) => (.error e, ["Modifying config..."], acts)
        | (.ok _, acts) =>
          (.ok (), ["Modifying config...", "[OK] Configuration locked"], acts)
      else (.ok (), ["Skipping config lock (disabled)"], [])
    match step1 with
    | (.error e, logs, acts) =>
      ({ success := false, error := some e, logs := logs }, acts)
    | (.ok _, logs1, acts1) =>
      let step2 : Except String Unit × List String × List FsAction :=
        if createBlockers then
          match createDummyFiles env capcutRoot appsPath with
          | (.error e, acts) => (.error e, ["Creating blockers..."], acts)
          | (.ok _, acts) =>
            (.ok (), ["Creating blockers...", "[OK] Update blockers created"], acts)
        else (.ok (), ["Skipping blocker creation (disabled)"], [])
      match step2 with
      | (.error e, logs2, acts2) =>
        ({ success := false, error := some e, logs := logs1 ++ logs2 }, acts1 ++ acts2)
      | (.ok _, logs2, acts2) =>
        ({ success := true, error := none, logs := logs1 ++ logs2 }, acts1 ++ acts2)

/-- Model of `apply_protection` (`protector.rs` lines 132–174): the unconditional
variant — lock the config, then create the blockers. -/
def applyProtection (env : Env) : ProtectionResult × List FsAction :=
  match env.localAppData with
  | none =>
    ({ success := false, error := some "Failed to get LOCALAPPDATA", logs := [] }, [])
  | some la =>
    let appsPath := pjoin (pjoin la "CapCut") "Apps"
    let capcutRoot := pjoin la "CapCut"
    match lockConfiguration env appsPath with
    | (.error e, acts) =>
      ({ success := false, error := some e, logs := ["Modifying config..."] }, acts)
    | (.ok _, acts1) =>
      match createDummyFiles env capcutRoot appsPath with
      | (.error e, acts2) =>
        ({ success := false, error := some e,
           logs := ["Modifying config...", "[OK] Configuration locked",
                    "Creating blockers..."] }, acts1 ++ acts2)
      | (.ok _, acts2) =>
        ({ success := true, error := none,
           logs := ["Modifying config...", "[OK] Configuration locked",
                    "Creating blockers...", "[OK] Update blockers created"] },
         acts1 ++ acts2)

/-! ## `run_full_protection` (`protector.rs` lines 238–296) -/

/-- Model of `ProtectionParams` (`protector.rs` lines 230–236). -/
structure ProtectionParams where
  versionsToDelete : List String
  cleanCache : Bool
  lockConfig : Bool
  createBlockers : Bool

/-- Model of `run_full_protection`: check the running process (halting before any
filesystem action if CapCut runs), delete the requested versions, run the
cache cleaner when enabled (its logs are appended, its `success` flag is
never read), then apply the enabled protection stages. -/
def runFullProtection (env : Env) (params : ProtectionParams) :
    ProtectionResult × List FsAction :=
  let logs0 := ["Checking system state..."]
  if env.isCapcutRunning then
    ({ success := false,
       error := some "CapCut is still running. Please close it.",
       logs := logs0 }, [])
  else
    let logs0 := logs0 ++ ["[OK] No running instances"]
    let dr := deleteVersions env params.versionsToDelete
    let logs1 := logs0 ++ dr.1.logs
    if !dr.1.success then
      ({ success := false, error := dr.1.error, logs := logs1 }, dr.2)
    else
      let cacheStep : List String × List FsAction :=
        if params.cleanCache then
          (["Cleaning cache directories..."] ++ env.cacheResult.logs, [.cacheClean])
        else (["Skipping cache cleaning (disabled)"], [])
      let logs2 := logs1 ++ cacheStep.1
      if params.lockConfig || params.createBlockers then
        let pr := applyProtectionWithOptions env params.lockConfig params.createBlockers
        if !pr.1.success then
          ({ success := false, error := pr.1.error, logs := logs2 ++ pr.1.logs },
           dr.2 ++ cacheStep.2 ++ pr.2)
        else
          ({ success := true, error := none, logs := logs2 ++ pr.1.logs },
           dr.2 ++ cacheStep.2 ++ pr.2)
      else
        ({ success := true, error := none,
           logs := logs2 ++ ["Skipping protection (all options disabled)"] },
         dr.2 ++ cacheStep.2)

/-! ## A concrete demonstration environment -/

/-- A concrete platform environment: CapCut not running, `LOCALAPPDATA`
set, the apps directory present with four version directories, and every
filesystem primitive succeeding. -/
def baseEnv : Env where
  isCapcutRunning := false
  localAppData := some "C:/Users/u/AppData/Local"
  pathExists := fun _ => true
  isDir := fun _ => true
  subdirs := fun _ => ["3.2.0", "10.0.0", "1.5.0", "2.9.0"]
  dirSize := fun _ => 0
  readDirErr := fun _ => none
  removeDirAllErr := fun _ => none
  removeFileErr := fun _ => none
  writeFileErr := fun _ => none
  createDirAllErr := fun _ => none
  attribErr := fun _ => none
  readFile := fun _ => none
  cacheResult := { success := true, error := none, logs := [] }

/-! ## Lemmas: the config-rewrite loop -/

theorem lockLoop_eq (ls : List (List Char)) :
    lockLoop ls = (ls.map lockLine, ls.any matchesLastVersion) := by
  induction ls with
  | nil => rfl
  | cons l ls ih =>
    simp only [lockLoop, ih, List.map_cons, List.any_cons, lockLine]
    by_cases h : matchesLastVersion l <;> simp [h]

theorem lockRewriteLines_eq (ls : List (List Char)) :
    lockRewriteLines ls =
      ls.map lockLine ++ (if ls.any matchesLastVersion then [] else [replLine]) := by
  simp only [lockRewriteLines, lockLoop_eq]
  by_cases h : ls.any matchesLastVersion <;> simp [h]

theorem matchesLastVersion_replLine : matchesLastVersion replLine = true := by decide

theorem lockLine_idem (l : List Char) : lockLine (lockLine l) = lockLine l := by
  unfold lockLine
  by_cases h : matchesLastVersion l <;>
    simp [h, matchesLastVersion_replLine]

/-! ## Lemmas: line splitting and joining -/

theorem splitNl_ne_nil (cs : List Char) : splitNl cs ≠ [] := by
  induction cs with
  | nil => simp [splitNl]
  | cons c cs ih =>
    rw [splitNl]
    by_cases h : c = '\n'
    · simp [h]
    · simp only [h, if_false]
      match hr : splitNl cs with
      | [] => exact absurd hr ih
      | s :: rest => simp

theorem no_newline_mem_splitNl (cs : List Char) :
    ∀ s ∈ splitNl cs, '\n' ∉ s := by
  induction cs with
  | nil =>
    intro s hs
    rw [splitNl] at hs
    simp only [List.mem_singleton] at hs
    simp [hs]
  | cons c cs ih =>
    intro s hs
    rw [splitNl] at hs
    by_cases h : c = '\n'
    · simp only [h, if_true] at hs
      rcases List.mem_cons.mp hs with hs | hs
      · simp [hs]
      · exact ih s hs
    · simp only [h, if_false] at hs
      match hr : splitNl cs with
      | [] => exact absurd hr (splitNl_ne_nil cs)
      | t :: rest =>
        rw [hr] at hs
        rcases List.mem_cons.mp hs with hs | hs
        · subst hs
          intro hmem
          rcases List.mem_cons.mp hmem with h1 | h1
          · exact h h1.symm
          · exact ih t (by rw [hr]; exact List.mem_cons_self t rest) h1
        · exact ih s (by rw [hr]; exact List.mem_cons_of_mem t hs)

theorem splitNl_of_no_newline (l : List Char) (h : '\n' ∉ l) : splitNl l = [l] := by
  induction l with
  | nil => rfl
  | cons c cs ih =>
    have hc : c ≠ '\n' := fun hcn => h (by simp [hcn])
    have hcs : '\n' ∉ cs := fun hm => h (List.mem_cons_of_mem c hm)
    rw [splitNl]
    simp only [hc, if_false, ih hcs]

theorem splitNl_append_newline (l cs : List Char) (h : '\n' ∉ l) :
    splitNl (l ++ '\n' :: cs) = l :: splitNl cs := by
  induction l with
  | nil => simp [splitNl]
  | cons c t ih =>
    have hc : c ≠ '\n' := fun hcn => h (by simp [hcn])
    have ht : '\n' ∉ t := fun hm => h (List.mem_cons_of_mem c hm)
    rw [List.cons_append, splitNl]
    simp only [hc, if_false]
    rw [ih ht]

theorem splitNl_joinNl (ls : List (List Char)) (hne : ls ≠ [])
    (h : ∀ l ∈ ls, '\n' ∉ l) : splitNl (joinNl ls) = ls := by
  induction ls with
  | nil => exact absurd rfl hne
  | cons l ls ih =>
    match ls with
    | [] => exact splitNl_of_no_newline l (h l (by simp))
    | m :: rest =>
      have hl : '\n' ∉ l := h l (by simp)
      have hrest : ∀ x ∈ m :: rest, '\n' ∉ x := fun x hx =>
        h x (List.mem_cons_of_mem l hx)
      rw [joinNl, splitNl_append_newline l _ hl, ih (List.cons_ne_nil m rest) hrest]

theorem map_stripTrailingCR_id (ls : List (List Char))
    (h : ∀ l ∈ ls, l.getLast? ≠ some '\x0d') :
    ls.map stripTrailingCR = ls := by
  induction ls with
  | nil => rfl
  | cons l ls ih =>
    have h1 : stripTrailingCR l = l := by
      simp [stripTrailingCR, h l (by simp)]
    rw [List.map_cons, h1, ih (fun x hx => h x (List.mem_cons_of_mem l hx))]

theorem rustLinesChars_joinNl (ls : List (List Char))
    (h1 : ∀ l ∈ ls, '\n' ∉ l)
    (h2 : ∀ l ∈ ls, l.getLast? ≠ some '\x0d')
    (h3 : ls.getLast? ≠ some []) :
    rustLinesChars (joinNl ls) = ls := by
  match ls with
  | [] => rfl
  | l :: rest =>
    have hne : l :: rest ≠ ([] : List (List Char)) := by simp
    have hsplit : splitNl (joinNl (l :: rest)) = l :: rest :=
      splitNl_joinNl _ hne h1
    have hlast : (l :: rest).getLast? = some ((l :: rest).getLast hne) :=
      List.getLast?_eq_getLast _ hne
    have hlast_ne : ¬ ((l :: rest).getLast hne).isEmpty := by
      intro hemp
      apply h3
      rw [hlast]
      congr 1
      exact List.isEmpty_iff.mp hemp
    have hinit : ((l :: rest).dropLast).map stripTrailingCR = (l :: rest).dropLast :=
      map_stripTrailingCR_id _ (fun x hx =>
        h2 x ((List.dropLast_sublist _).mem hx))
    rw [rustLinesChars]
    simp only [hsplit, hlast, hlast_ne, if_false, hinit]
    exact List.dropLast_append_getLast? _ hlast

/-! ## Lemmas: small decidable facts about the replacement line -/

theorem replLine_no_newline : '\n' ∉ replLine := by decide

theorem replLine_getLast?_ne_cr : replLine.getLast? ≠ some '\x0d' := by decide

theorem replLine_ne_nil : replLine ≠ [] := by decide

theorem replLine_ne_replLine_cr : replLine ≠ replLine ++ ['\x0d'] := by decide

theorem matchesLastVersion_replLine_cr :
    matchesLastVersion (replLine ++ ['\x0d']) = true := by decide

theorem lockLine_eq_replLine_iff (l : List Char) :
    lockLine l = replLine ↔ matchesLastVersion l = true := by
  unfold lockLine
  by_cases h : matchesLastVersion l
  · simp [h]
  · simp only [h, if_false, Bool.false_eq_true, iff_false]
    intro hl
    rw [hl] at h
    exact h matchesLastVersion_replLine

theorem rustLinesChars_eq_of_getLast (cs last : List Char)
    (hq : (splitNl cs).getLast? = some last) :
    rustLinesChars cs =
      if last.isEmpty then (splitNl cs).dropLast.map stripTrailingCR
      else (splitNl cs).dropLast.map stripTrailingCR ++ [last] := by
  unfold rustLinesChars
  simp only [hq]

theorem no_newline_mem_rustLinesChars (cs : List Char) :
    ∀ l ∈ rustLinesChars cs, '\n' ∉ l := by
  intro l hl
  have hsegs := no_newline_mem_splitNl cs
  have hq : (splitNl cs).getLast? = some ((splitNl cs).getLast (splitNl_ne_nil cs)) :=
    List.getLast?_eq_getLast _ _
  rw [rustLinesChars_eq_of_getLast cs _ hq] at hl
  have hmem_of_init : l ∈ (splitNl cs).dropLast.map stripTrailingCR → '\n' ∉ l := by
    intro hm
    rcases List.mem_map.mp hm with ⟨x, hx, hxl⟩
    have hxs : x ∈ splitNl cs := (List.dropLast_sublist _).mem hx
    subst hxl
    intro hin
    apply hsegs x hxs
    unfold stripTrailingCR at hin
    split at hin
    · exact (List.dropLast_sublist x).mem hin
    · exact hin
  split at hl
  · exact hmem_of_init hl
  · rcases List.mem_append.mp hl with hm | hm
    · exact hmem_of_init hm
    · have : l = (splitNl cs).getLast (splitNl_ne_nil cs) := by simpa using hm
      subst this
      exact hsegs _ (List.getLast_mem _)

/-! ## Claim C4 — the rewrite replaces matching lines, preserves the rest -/

/-- C4: for every input config content, `lock_configuration`'s rewrite
replaces every line whose trimmed form starts with `last_version` by
exactly `last_version=1.0.0.0`, leaves every other line unchanged in its
original relative order, and appends `last_version=1.0.0.0` as the final
line when no line matched; in particular the input lines
`["foo=1", "last_version=0.0.0.1", "bar=2"]` produce
`["foo=1", "last_version=1.0.0.0", "bar=2"]`. -/
theorem lockRewrite_replaces_preserves_appends :
    (∀ content : String,
      lockRewrite content =
        ⟨joinNl ((rustLinesChars content.data).map lockLine ++
          (if (rustLinesChars content.data).any matchesLastVersion then []
           else [replLine]))⟩) ∧
    rustLines (lockRewrite "foo=1\nlast_version=0.0.0.1\nbar=2") =
      ["foo=1", "last_version=1.0.0.0", "bar=2"] := by
  constructor
  · intro content
    simp only [lockRewrite, lockRewriteLines_eq]
  · decide

/-! ## Claim C5 — idempotence of the rewrite -/

/-- C5 counterexample: the rewrite is **not** idempotent on every input.
For the content `"abc\r"` the first pass keeps the line `"abc\r"` and
appends the replacement, producing `"abc\r\nlast_version=1.0.0.0"`; the
second pass parses `"\r\n"` as one line terminator, so the `'\r'`
disappears and the output differs byte-wise. -/
theorem lockRewrite_not_idempotent_on_cr :
    lockRewrite (lockRewrite "abc\x0d") ≠ lockRewrite "abc\x0d" := by decide

/-- C5 (amended): the rewrite is idempotent on every content none of whose
lines ends in a carriage return and whose final line (if any) is nonempty. -/
theorem lockRewrite_idempotent
    (content : String)
    (hcr : ∀ l ∈ rustLinesChars content.data, l.getLast? ≠ some '\x0d')
    (hlast : (rustLinesChars content.data).getLast? ≠ some []) :
    lockRewrite (lockRewrite content) = lockRewrite content := by
  have hchar := lockRewriteLines_eq (rustLinesChars content.data)
  -- the line list the first pass writes
  have hout_mem :
      ∀ l ∈ lockRewriteLines (rustLinesChars content.data),
        l = replLine ∨ l ∈ rustLinesChars content.data := by
    intro l hl
    rw [hchar] at hl
    rcases List.mem_append.mp hl with hm | hm
    · rcases List.mem_map.mp hm with ⟨x, hx, hxl⟩
      unfold lockLine at hxl
      split at hxl
      · exact Or.inl hxl.symm
      · exact Or.inr (hxl ▸ hx)
    · split at hm
      · simp at hm
      · exact Or.inl (by simpa using hm)
  have hnl : ∀ l ∈ lockRewriteLines (rustLinesChars content.data), '\n' ∉ l := by
    intro l hl
    rcases hout_mem l hl with h | h
    · exact h ▸ replLine_no_newline
    · exact no_newline_mem_rustLinesChars _ l h
  have hcr' : ∀ l ∈ lockRewriteLines (rustLinesChars content.data),
      l.getLast? ≠ some '\x0d' := by
    intro l hl
    rcases hout_mem l hl with h | h
    · exact h ▸ replLine_getLast?_ne_cr
    · exact hcr l h
  have hlast' : (lockRewriteLines (rustLinesChars content.data)).getLast? ≠ some [] := by
    rw [hchar]
    by_cases hany : (rustLinesChars content.data).any matchesLastVersion
    · rw [if_pos hany, List.append_nil, List.getLast?_map]
      intro hsome
      rcases Option.map_eq_some'.mp hsome with ⟨y, hy, hyl⟩
      unfold lockLine at hyl
      split at hyl
      · exact replLine_ne_nil hyl
      · exact hlast (hyl ▸ hy)
    · rw [if_neg hany, List.getLast?_concat]
      intro h
      exact replLine_ne_nil (Option.some.inj h)
  -- re-splitting the written file recovers exactly the written lines
  have hrt : rustLinesChars (joinNl (lockRewriteLines (rustLinesChars content.data))) =
      lockRewriteLines (rustLinesChars content.data) :=
    rustLinesChars_joinNl _ hnl hcr' hlast'
  -- the second pass fixes every line and finds a match
  have hfix : ∀ l ∈ lockRewriteLines (rustLinesChars content.data), lockLine l = l := by
    intro l hl
    rcases hout_mem l hl with h | h
    · rw [h]; unfold lockLine; simp [matchesLastVersion_replLine]
    · rcases hout_mem l hl with h2 | _
      · rw [h2]; unfold lockLine; simp [matchesLastVersion_replLine]
      · -- l came either from a match (then it is replLine, handled) or unchanged
        rw [hchar] at hl
        rcases List.mem_append.mp hl with hm | hm
        · rcases List.mem_map.mp hm with ⟨x, hx, hxl⟩
          rw [← hxl]
          exact lockLine_idem x
        · split at hm
          · simp at hm
          · have : l = replLine := by simpa using hm
            rw [this]; unfold lockLine; simp [matchesLastVersion_replLine]
  have hany' : (lockRewriteLines (rustLinesChars content.data)).any
      matchesLastVersion = true := by
    rw [hchar]
    by_cases hany : (rustLinesChars content.data).any matchesLastVersion
    · rcases List.any_eq_true.mp hany with ⟨x, hx, hmx⟩
      apply List.any_eq_true.mpr
      refine ⟨replLine, ?_, matchesLastVersion_replLine⟩
      apply List.mem_append.mpr
      left
      apply List.mem_map.mpr
      exact ⟨x, hx, by unfold lockLine; simp [hmx]⟩
    · apply List.any_eq_true.mpr
      refine ⟨replLine, ?_, matchesLastVersion_replLine⟩
      rw [if_neg hany]
      simp
  have hsecond : lockRewriteLines (lockRewriteLines (rustLinesChars content.data)) =
      lockRewriteLines (rustLinesChars content.data) := by
    rw [lockRewriteLines_eq, hany', if_pos rfl, List.append_nil]
    calc (lockRewriteLines (rustLinesChars content.data)).map lockLine
        = (lockRewriteLines (rustLinesChars content.data)).map id :=
          List.map_congr_left hfix
      _ = _ := List.map_id _
  show (⟨joinNl (lockRewriteLines (rustLinesChars
      (joinNl (lockRewriteLines (rustLinesChars content.data)))))⟩ : String) = _
  rw [hrt, hsecond]
  rfl

/-- C5 witness: idempotence at the example content
`"foo=1\nlast_version=0.0.0.1\nbar=2"`, whose lines end in no carriage
return and whose final line is nonempty. -/
theorem lockRewrite_idempotent_witness :
    lockRewrite (lockRewrite "foo=1\nlast_version=0.0.0.1\nbar=2") =
      lockRewrite "foo=1\nlast_version=0.0.0.1\nbar=2" :=
  lockRewrite_idempotent _ (by decide) (by decide)

/-! ## Claim C6 — how many `last_version=1.0.0.0` lines result -/

theorem count_replLine_map_lockLine (ls : List (List Char)) :
    ((ls.map lockLine).count replLine) = ls.countP matchesLastVersion := by
  induction ls with
  | nil => rfl
  | cons l ls ih =>
    rw [List.map_cons, List.count_cons, List.countP_cons, ih]
    congr 1
    by_cases h : matchesLastVersion l
    · simp [h, (lockLine_eq_replLine_iff l).mpr h]
    · have : lockLine l ≠ replLine := fun hc =>
        h ((lockLine_eq_replLine_iff l).mp hc)
      simp [h, this]

theorem stripTrailingCR_beq_replLine (l : List Char)
    (h : l ≠ replLine ++ ['\x0d']) :
    (stripTrailingCR l == replLine) = (l == replLine) := by
  unfold stripTrailingCR
  by_cases hl : l.getLast? = some '\x0d'
  · rw [if_pos hl]
    have hne : l ≠ replLine := fun hc => replLine_getLast?_ne_cr (hc ▸ hl)
    have hdl : l.dropLast ≠ replLine := by
      intro hc
      apply h
      have := List.dropLast_append_getLast? '\x0d' hl
      rw [← this, hc]
    simp [hne, hdl]
  · rw [if_neg hl]

theorem count_map_stripTrailingCR (xs : List (List Char))
    (h : ∀ l ∈ xs, l ≠ replLine ++ ['\x0d']) :
    ((xs.map stripTrailingCR).count replLine) = xs.count replLine := by
  induction xs with
  | nil => rfl
  | cons l xs ih =>
    rw [List.map_cons, List.count_cons, List.count_cons,
      ih (fun x hx => h x (List.mem_cons_of_mem l hx)),
      stripTrailingCR_beq_replLine l (h l (by simp))]

theorem count_replLine_rustLinesChars_joinNl (out : List (List Char))
    (hne : out ≠ [])
    (hnl : ∀ l ∈ out, '\n' ∉ l)
    (hcr : ∀ l ∈ out, l ≠ replLine ++ ['\x0d']) :
    ((rustLinesChars (joinNl out)).count replLine) = out.count replLine := by
  have hsplit : splitNl (joinNl out) = out := splitNl_joinNl out hne hnl
  have hq : (splitNl (joinNl out)).getLast? = some (out.getLast hne) := by
    rw [hsplit]; exact List.getLast?_eq_getLast _ hne
  rw [rustLinesChars_eq_of_getLast _ _ hq, hsplit]
  have hinit : ((out.dropLast.map stripTrailingCR).count replLine)
      = out.dropLast.count replLine :=
    count_map_stripTrailingCR _ (fun x hx => hcr x ((List.dropLast_sublist _).mem hx))
  have hdecomp : out.dropLast ++ [out.getLast hne] = out :=
    List.dropLast_append_getLast hne
  by_cases he : (out.getLast hne).isEmpty
  · rw [if_pos he, hinit]
    have hlast_nil : out.getLast hne = [] := List.isEmpty_iff.mp he
    have : out.count replLine = out.dropLast.count replLine := by
      conv_lhs => rw [← hdecomp]
      rw [List.count_append, hlast_nil]
      have h0 : List.count replLine [([] : List Char)] = 0 := by decide
      rw [h0, Nat.add_zero]
    rw [this]
  · rw [if_neg he, List.count_append, hinit]
    conv_rhs => rw [← hdecomp]
    rw [List.count_append]

/-- C6 counterexample: when the input has two `last_version` lines, both
are rewritten and the resulting file contains **two** lines equal to
`last_version=1.0.0.0`, not exactly one. -/
theorem lockRewrite_two_matching_lines :
    ((rustLinesChars (lockRewrite "last_version=a\nlast_version=b").data).count
      replLine) ≠ 1 := by decide

/-- C6 (amended): after one application of the rewrite, the resulting file
contains `max 1 m` lines equal to `last_version=1.0.0.0`, where `m` is the
number of input lines whose trimmed form starts with `last_version`
(each matching line is individually rewritten, no deduplication; exactly
one such line results precisely when `m ≤ 1`). -/
theorem lockRewrite_replLine_count (content : String) :
    ((rustLinesChars (lockRewrite content).data).count replLine) =
      max 1 ((rustLinesChars content.data).countP matchesLastVersion) := by
  have hchar := lockRewriteLines_eq (rustLinesChars content.data)
  have hout_mem :
      ∀ l ∈ lockRewriteLines (rustLinesChars content.data),
        l = replLine ∨ l ∈ rustLinesChars content.data := by
    intro l hl
    rw [hchar] at hl
    rcases List.mem_append.mp hl with hm | hm
    · rcases List.mem_map.mp hm with ⟨x, hx, hxl⟩
      unfold lockLine at hxl
      split at hxl
      · exact Or.inl hxl.symm
      · exact Or.inr (hxl ▸ hx)
    · split at hm
      · simp at hm
      · exact Or.inl (by simpa using hm)
  have hnl : ∀ l ∈ lockRewriteLines (rustLinesChars content.data), '\n' ∉ l := by
    intro l hl
    rcases hout_mem l hl with h | h
    · exact h ▸ replLine_no_newline
    · exact no_newline_mem_rustLinesChars _ l h
  have hcr : ∀ l ∈ lockRewriteLines (rustLinesChars content.data),
      l ≠ replLine ++ ['\x0d'] := by
    intro l hl hlcr
    rw [hchar] at hl
    rcases List.mem_append.mp hl with hm | hm
    · rcases List.mem_map.mp hm with ⟨x, hx, hxl⟩
      unfold lockLine at hxl
      split at hxl
      · exact replLine_ne_replLine_cr (hxl.trans hlcr)
      · next hmx =>
        rw [hxl, hlcr] at hmx
        exact hmx matchesLastVersion_replLine_cr
    · split at hm
      · simp at hm
      · have : l = replLine := by simpa using hm
        exact replLine_ne_replLine_cr (this.symm.trans hlcr)
  have hne : lockRewriteLines (rustLinesChars content.data) ≠ [] := by
    rw [hchar]
    by_cases hany : (rustLinesChars content.data).any matchesLastVersion
    · rcases List.any_eq_true.mp hany with ⟨x, hx, _⟩
      rw [if_pos hany, List.append_nil]
      intro hc
      rw [List.map_eq_nil_iff.mp hc] at hx
      simp at hx
    · rw [if_neg hany]
      simp
  have hdata : (lockRewrite content).data =
      joinNl (lockRewriteLines (rustLinesChars content.data)) := rfl
  rw [hdata, count_replLine_rustLinesChars_joinNl _ hne hnl hcr, hchar,
    List.count_append, count_replLine_map_lockLine]
  by_cases hany : (rustLinesChars content.data).any matchesLastVersion
  · rcases List.any_eq_true.mp hany with ⟨x, hx, hmx⟩
    have hpos : 0 < (rustLinesChars content.data).countP matchesLastVersion :=
      List.countP_pos_iff.mpr ⟨x, hx, hmx⟩
    rw [if_pos hany]
    simp [Nat.max_eq_right hpos]
  · have hzero : (rustLinesChars content.data).countP matchesLastVersion = 0 :=
      List.countP_eq_zero.mpr (fun a ha hpa =>
        hany (List.any_eq_true.mpr ⟨a, ha, hpa⟩))
    rw [if_neg hany, hzero]
    simp [List.count_singleton]

/-! ## Lemmas: the lexical comparator is a total preorder -/

theorem cmpChar_lt_iff (a b : Char) : cmpChar a b = .lt ↔ a.toNat < b.toNat := by
  unfold cmpChar
  split_ifs with h1 h2 <;> simp_all <;> omega

theorem cmpChar_gt_iff (a b : Char) : cmpChar a b = .gt ↔ b.toNat < a.toNat := by
  unfold cmpChar
  split_ifs with h1 h2 <;> simp_all <;> omega

theorem cmpChar_eq_iff (a b : Char) : cmpChar a b = .eq ↔ a.toNat = b.toNat := by
  unfold cmpChar
  split_ifs with h1 h2 <;> simp_all <;> omega

theorem cmpChar_swap (a b : Char) : cmpChar b a = (cmpChar a b).swap := by
  unfold cmpChar
  split_ifs <;> first | rfl | omega

theorem lexCompareChars_swap (a b : List Char) :
    lexCompareChars b a = (lexCompareChars a b).swap := by
  induction a generalizing b with
  | nil => cases b <;> rfl
  | cons x xs ih =>
    cases b with
    | nil => rfl
    | cons y ys =>
      rw [lexCompareChars, lexCompareChars, cmpChar_swap]
      cases hc : cmpChar x y <;> simp [Ordering.swap, ih ys]

theorem lexCompareChars_trans (a b c : List Char)
    (h1 : lexCompareChars a b ≠ .gt) (h2 : lexCompareChars b c ≠ .gt) :
    lexCompareChars a c ≠ .gt := by
  induction a generalizing b c with
  | nil => cases c <;> simp [lexCompareChars]
  | cons x xs ih =>
    cases b with
    | nil => simp [lexCompareChars] at h1
    | cons y ys =>
      cases c with
      | nil => simp [lexCompareChars] at h2
      | cons z zs =>
        rw [lexCompareChars] at h1 ⊢
        rw [lexCompareChars] at h2
        rcases hxy : cmpChar x y with _ | _ | _ <;> rw [hxy] at h1 <;>
          rcases hyz : cmpChar y z with _ | _ | _ <;> rw [hyz] at h2
        · have hxz : cmpChar x z = .lt := (cmpChar_lt_iff x z).mpr
            (by have := (cmpChar_lt_iff x y).mp hxy
                have := (cmpChar_lt_iff y z).mp hyz; omega)
          rw [hxz]; simp
        · have hxz : cmpChar x z = .lt := (cmpChar_lt_iff x z).mpr
            (by have := (cmpChar_lt_iff x y).mp hxy
                have := (cmpChar_eq_iff y z).mp hyz; omega)
          rw [hxz]; simp
        · simp at h2
        · have hxz : cmpChar x z = .lt := (cmpChar_lt_iff x z).mpr
            (by have := (cmpChar_eq_iff x y).mp hxy
                have := (cmpChar_lt_iff y z).mp hyz; omega)
          rw [hxz]; simp
        · have hxz : cmpChar x z = .eq := (cmpChar_eq_iff x z).mpr
            (by have := (cmpChar_eq_iff x y).mp hxy
                have := (cmpChar_eq_iff y z).mp hyz; omega)
          rw [hxz]
          exact ih ys zs h1 h2
        · simp at h2
        · simp at h1
        · simp at h1
        · simp at h1

theorem mem_insertByCmp {cmp : α → α → Ordering} {a x : α} {l : List α} :
    x ∈ insertByCmp cmp a l ↔ x = a ∨ x ∈ l := by
  induction l with
  | nil => simp [insertByCmp]
  | cons b bs ih =>
    rw [insertByCmp]
    by_cases h : cmp a b = .gt
    · rw [if_pos h]
      simp only [List.mem_cons, ih]
      tauto
    · rw [if_neg h]
      simp only [List.mem_cons]

theorem pairwise_insertByCmp {cmp : α → α → Ordering}
    (htrans : ∀ a b c, cmp a b ≠ .gt → cmp b c ≠ .gt → cmp a c ≠ .gt)
    (htot : ∀ a b, cmp a b = .gt → cmp b a ≠ .gt)
    (a : α) (l : List α) (h : AscendingBy cmp l) :
    AscendingBy cmp (insertByCmp cmp a l) := by
  induction l with
  | nil => simp [insertByCmp, AscendingBy]
  | cons b bs ih =>
    rcases List.pairwise_cons.mp h with ⟨hb, hbs⟩
    rw [insertByCmp]
    by_cases hab : cmp a b = .gt
    · rw [if_pos hab]
      apply List.pairwise_cons.mpr
      refine ⟨?_, ih hbs⟩
      intro x hx
      rcases mem_insertByCmp.mp hx with heq | hx
      · subst heq
        exact htot x b hab
      · exact hb x hx
    · rw [if_neg hab]
      apply List.pairwise_cons.mpr
      refine ⟨?_, h⟩
      intro x hx
      rcases List.mem_cons.mp hx with rfl | hx
      · exact hab
      · exact htrans a b x hab (hb x hx)

theorem ascendingBy_rustSortBy {cmp : α → α → Ordering}
    (htrans : ∀ a b c, cmp a b ≠ .gt → cmp b c ≠ .gt → cmp a c ≠ .gt)
    (htot : ∀ a b, cmp a b = .gt → cmp b a ≠ .gt) (l : List α) :
    AscendingBy cmp (rustSortBy cmp l) := by
  induction l with
  | nil => simp [rustSortBy, AscendingBy]
  | cons a as ih => exact pairwise_insertByCmp htrans htot a _ ih

theorem lexCompare_trans (a b c : String)
    (h1 : lexCompare a b ≠ .gt) (h2 : lexCompare b c ≠ .gt) :
    lexCompare a c ≠ .gt :=
  lexCompareChars_trans _ _ _ h1 h2

theorem lexCompare_asymm (a b : String) (h : lexCompare a b = .gt) :
    lexCompare b a ≠ .gt := by
  unfold lexCompare at h ⊢
  rw [lexCompareChars_swap, h]
  decide

/-- Every list the Tauri scanner returns is ascending for the **plain
lexical** comparator on the directory name. -/
theorem scannerScanVersions_ascending_lex (env : Env) :
    AscendingBy lexCompare ((scannerScanVersions env).map VersionInfo.name) := by
  unfold scannerScanVersions
  cases env.localAppData with
  | none => simp [AscendingBy]
  | some la =>
    simp only
    split
    · have hp := @ascendingBy_rustSortBy VersionInfo
        (fun a b => lexCompare a.name b.name)
        (fun a b c => lexCompare_trans a.name b.name c.name)
        (fun a b => lexCompare_asymm a.name b.name)
        (scanEntries env (pjoin (pjoin la "CapCut") "Apps"))
      unfold AscendingBy at hp ⊢
      rw [List.pairwise_map]
      exact hp
    · simp [AscendingBy]

/-! ## Claim C1 — which comparator orders the scanned version list -/

/-- C1 counterexample: the Tauri scanner's `scan_versions` does use plain
lexical string comparison, so on directories `3.2.0`, `10.0.0`, `1.5.0`,
`2.9.0` the returned list is **not** ascending for the natural comparator
(it places `10.0.0` before `2.9.0`). -/
theorem scannerScanVersions_not_natural_sorted :
    ¬ AscendingBy humanCompare ((scannerScanVersions baseEnv).map VersionInfo.name) := by
  unfold AscendingBy
  decide

/-- C1 (amended): the egui revision's scan (`main.rs`) sorts ascending by
the natural `human_sort` comparator — under which
`"2.9.0" < "3.2.0" < "10.0.0"` — but the Tauri revision's scan
(`scanner.rs`) sorts by plain lexical string comparison: every Tauri scan
is lexically ascending, and on the same four directories the two revisions
return different orders. -/
theorem scan_orderings_by_revision :
    (∀ env : Env,
      AscendingBy lexCompare ((scannerScanVersions env).map VersionInfo.name)) ∧
    humanCompare "2.9.0" "3.2.0" = .lt ∧
    humanCompare "3.2.0" "10.0.0" = .lt ∧
    humanCompare "2.9.0" "10.0.0" = .lt ∧
    (mainScanVersions baseEnv "C:/Users/u/AppData/Local/CapCut/Apps").map
        VersionInfo.name = ["1.5.0", "2.9.0", "3.2.0", "10.0.0"] ∧
    (scannerScanVersions baseEnv).map VersionInfo.name =
        ["1.5.0", "10.0.0", "2.9.0", "3.2.0"] := by
  refine ⟨scannerScanVersions_ascending_lex, ?_, ?_, ?_, ?_, ?_⟩ <;> decide

/-! ## Claim C2 — heuristic retention deletes exactly the newest entry -/

theorem length_insertByCmp (cmp : α → α → Ordering) (a : α) (l : List α) :
    (insertByCmp cmp a l).length = l.length + 1 := by
  induction l with
  | nil => rfl
  | cons b bs ih =>
    rw [insertByCmp]
    by_cases h : cmp a b = .gt
    · rw [if_pos h]
      simp [ih]
    · rw [if_neg h]
      simp

theorem length_rustSortBy (cmp : α → α → Ordering) (l : List α) :
    (rustSortBy cmp l).length = l.length := by
  induction l with
  | nil => rfl
  | cons a as ih => rw [rustSortBy, length_insertByCmp, ih, List.length_cons]

/-- C2: in heuristic mode (`main.rs` `clean_versions`), for a scanned list
of `n ≥ 2` version directories exactly one — the last in the
natural-sorted ascending order, i.e. the newest — is deleted (its
read-only bits cleared and then `remove_dir_all`), every other entry is
untouched; for `n ≤ 1` nothing is deleted. -/
theorem cleanVersions_deletes_exactly_newest (env : Env) (appsPath : String)
    (hrd : env.readDirErr appsPath = none) :
    (∀ victim,
      2 ≤ ((env.subdirs appsPath).map (pjoin appsPath)).length →
      (rustSortBy (fun a b => humanCompare (fileName a) (fileName b))
          ((env.subdirs appsPath).map (pjoin appsPath))).getLast? = some victim →
      env.removeDirAllErr victim = none →
      cleanVersions env appsPath =
        (.ok (), [.unsetReadonly victim, .removeDirAll victim])) ∧
    (((env.subdirs appsPath).map (pjoin appsPath)).length ≤ 1 →
      cleanVersions env appsPath = (.ok (), [])) := by
  have hlen := length_rustSortBy
    (fun a b => humanCompare (fileName a) (fileName b))
    ((env.subdirs appsPath).map (pjoin appsPath))
  constructor
  · intro victim h2 hlast hrm
    unfold cleanVersions
    rw [hrd]
    simp only
    rw [if_pos (by omega), hlast]
    simp only [hrm]
  · intro h1
    unfold cleanVersions
    rw [hrd]
    simp only
    rw [if_neg (by omega)]

/-- C2 witness: on four concrete directories the natural-sort newest
(`10.0.0`) alone is deleted. -/
theorem cleanVersions_witness :
    cleanVersions baseEnv "apps" =
      (.ok (), [.unsetReadonly "apps/10.0.0", .removeDirAll "apps/10.0.0"]) :=
  (cleanVersions_deletes_exactly_newest baseEnv "apps" rfl).1
    "apps/10.0.0" (by decide) (by decide) rfl

/-! ## Claim C3 — a running CapCut halts the run before any mutation -/

/-- C3: whenever the process-inspection collaborator reports CapCut
running, `run_full_protection` returns the failed result with the fixed
user-actionable message, the log holds exactly the pre-check entry, and
the filesystem trace is empty — no deletion, config write or blocker
creation is attempted. -/
theorem runFullProtection_halts_when_running (env : Env) (params : ProtectionParams)
    (h : env.isCapcutRunning = true) :
    runFullProtection env params =
      ({ success := false,
         error := some "CapCut is still running. Please close it.",
         logs := ["Checking system state..."] }, []) := by
  unfold runFullProtection
  rw [h]
  rfl

/-- C3 witness: the concrete environment with CapCut running. -/
theorem runFullProtection_halts_when_running_witness :
    runFullProtection { baseEnv with isCapcutRunning := true }
        ⟨["C:/Users/u/AppData/Local/CapCut/Apps/3.2.0"], true, true, true⟩ =
      ({ success := false,
         error := some "CapCut is still running. Please close it.",
         logs := ["Checking system state..."] }, []) :=
  runFullProtection_halts_when_running _ _ rfl

/-! ## Claim C7 — a failing deletion: message, no rollback, halt -/

theorem deleteLoop_first_failure (env : Env) :
    ∀ (paths : List String) (i : Nat) (hi : i < paths.length) (e : String),
      (∀ j, (hj : j < paths.length) → j < i → env.removeDirAllErr paths[j] = none) →
      env.removeDirAllErr paths[i] = some e →
      deleteLoop env paths =
        .error ("Failed to delete " ++ fileName paths[i] ++ ": " ++ e,
          (paths.take (i+1)).map (fun p => "Deleting: " ++ fileName p),
          (paths.take (i+1)).flatMap
            (fun p => [FsAction.unsetReadonly p, FsAction.removeDirAll p])) := by
  intro paths
  induction paths with
  | nil =>
    intro i hi
    simp at hi
  | cons p rest ih =>
    intro i hi e hprev hfail
    cases i with
    | zero =>
      have hf : env.removeDirAllErr p = some e := hfail
      rw [deleteLoop, hf]
      rfl
    | succ i' =>
      have h0 : env.removeDirAllErr p = none :=
        hprev 0 (by simp) (Nat.succ_pos i')
      have hi' : i' < rest.length := by
        simpa using hi
      have hprev' : ∀ j, (hj : j < rest.length) → j < i' →
          env.removeDirAllErr rest[j] = none := by
        intro j hj hji
        have := hprev (j + 1) (by simpa using hj) (by omega)
        simpa using this
      have hfail' : env.removeDirAllErr rest[i'] = some e := by
        simpa using hfail
      rw [deleteLoop, h0, ih i' hi' e hprev' hfail']
      simp [List.take_succ_cons]

/-- C7: if the first failing deletion in the requested list is at index
`i`, `run_full_protection` halts there with a failed result whose error
names that directory and the underlying cause; the returned filesystem
trace shows the earlier directories deleted (and nothing after the failing
attempt — no rollback, no later stage), and the log holds every entry up
to and including the failing step. -/
theorem runFullProtection_delete_failure (env : Env) (params : ProtectionParams)
    (i : Nat) (e : String)
    (hrun : env.isCapcutRunning = false)
    (hi : i < params.versionsToDelete.length)
    (hprev : ∀ j, (hj : j < params.versionsToDelete.length) → j < i →
      env.removeDirAllErr params.versionsToDelete[j] = none)
    (hfail : env.removeDirAllErr params.versionsToDelete[i] = some e) :
    runFullProtection env params =
      ({ success := false,
         error := some ("Failed to delete " ++
           fileName params.versionsToDelete[i] ++ ": " ++ e),
         logs := ["Checking system state...", "[OK] No running instances"] ++
           (params.versionsToDelete.take (i+1)).map
             (fun p => "Deleting: " ++ fileName p) },
       (params.versionsToDelete.take (i+1)).flatMap
         (fun p => [FsAction.unsetReadonly p, FsAction.removeDirAll p])) := by
  unfold runFullProtection deleteVersions
  rw [hrun, deleteLoop_first_failure env params.versionsToDelete i hi e hprev hfail]
  simp

/-- C7 witness: deleting three directories where the second fails; the
first remains deleted, the error names `b` and the cause, the run stops. -/
theorem runFullProtection_delete_failure_witness :
    runFullProtection
        { baseEnv with removeDirAllErr :=
            fun p => if p = "r/b" then some "access denied" else none }
        ⟨["r/a", "r/b", "r/c"], true, true, true⟩ =
      ({ success := false,
         error := some "Failed to delete b: access denied",
         logs := ["Checking system state...", "[OK] No running instances",
                  "Deleting: a", "Deleting: b"] },
       [.unsetReadonly "r/a", .removeDirAll "r/a",
        .unsetReadonly "r/b", .removeDirAll "r/b"]) := by
  have h := runFullProtection_delete_failure
    { baseEnv with removeDirAllErr :=
        fun p => if p = "r/b" then some "access denied" else none }
    ⟨["r/a", "r/b", "r/c"], true, true, true⟩ 1 "access denied"
    rfl (by decide) (by decide) (by decide)
  exact h.trans (by decide)

/-! ## Claim C8 — `error` is present exactly on failure -/

theorem deleteVersions_error_iff (env : Env) (paths : List String) :
    (deleteVersions env paths).1.error.isSome ↔
      (deleteVersions env paths).1.success = false := by
  unfold deleteVersions
  cases h : deleteLoop env paths with
  | error x => simp
  | ok x => simp

theorem applyProtectionWithOptions_error_iff (env : Env) (lc cb : Bool) :
    (applyProtectionWithOptions env lc cb).1.error.isSome ↔
      (applyProtectionWithOptions env lc cb).1.success = false := by
  unfold applyProtectionWithOptions
  rcases env.localAppData with _ | la
  · simp
  · dsimp only
    split
    · simp
    · split <;> simp

theorem applyProtection_error_iff (env : Env) :
    (applyProtection env).1.error.isSome ↔
      (applyProtection env).1.success = false := by
  unfold applyProtection
  rcases env.localAppData with _ | la
  · simp
  · dsimp only
    split
    · simp
    · split <;> simp

theorem runFullProtection_error_iff (env : Env) (params : ProtectionParams) :
    (runFullProtection env params).1.error.isSome ↔
      (runFullProtection env params).1.success = false := by
  unfold runFullProtection
  cases hrun : env.isCapcutRunning with
  | true => simp
  | false =>
    dsimp only
    by_cases hd : (deleteVersions env params.versionsToDelete).1.success
    · simp only [hd, Bool.not_true, Bool.false_eq_true, if_false]
      by_cases hopts : (params.lockConfig || params.createBlockers) = true
      · simp only [hopts, if_true]
        by_cases hp : (applyProtectionWithOptions env
            params.lockConfig params.createBlockers).1.success
        · simp [hp]
        · have := (applyProtectionWithOptions_error_iff env
            params.lockConfig params.createBlockers).mpr
            (Bool.not_eq_true _ ▸ Bool.of_not_eq_true hp)
          simp [hp, this]
      · simp [hopts]
    · have hdf : (deleteVersions env params.versionsToDelete).1.success = false :=
        Bool.of_not_eq_true hd
      have := (deleteVersions_error_iff env params.versionsToDelete).mpr hdf
      simp [hdf, this]

/-- C8: every `ProtectionResult` returned by `delete_versions`,
`apply_protection`, `apply_protection_with_options` and
`run_full_protection` carries `error = Some _` exactly when
`success == false`. -/
theorem protectionResult_error_iff_failed (env : Env) (paths : List String)
    (lc cb : Bool) (params : ProtectionParams) :
    ((deleteVersions env paths).1.error.isSome ↔
      (deleteVersions env paths).1.success = false) ∧
    ((applyProtection env).1.error.isSome ↔
      (applyProtection env).1.success = false) ∧
    ((applyProtectionWithOptions env lc cb).1.error.isSome ↔
      (applyProtectionWithOptions env lc cb).1.success = false) ∧
    ((runFullProtection env params).1.error.isSome ↔
      (runFullProtection env params).1.success = false) :=
  ⟨deleteVersions_error_iff env paths,
   applyProtection_error_iff env,
   applyProtectionWithOptions_error_iff env lc cb,
   runFullProtection_error_iff env params⟩

/-! ## Claim C9 — absence of `LOCALAPPDATA` -/

/-- C9 counterexample: the Tauri scanner command `scan_versions` converts
an absent `LOCALAPPDATA` into a silent empty scan: the result is the
bare list `[]`, byte-identical to the valid "nothing installed" outcome
(missing apps directory), with no error reported — while the same
environment with the variable present yields a non-empty scan. -/
theorem scannerScanVersions_silent_on_missing_var :
    scannerScanVersions { baseEnv with localAppData := none } = [] ∧
    scannerScanVersions { baseEnv with pathExists := fun _ => false } = [] ∧
    scannerScanVersions baseEnv ≠ [] := by
  refine ⟨rfl, rfl, ?_⟩
  decide

/-- C9 (amended): the protection operations (`apply_protection`,
`apply_protection_with_options`) report an absent `LOCALAPPDATA` as a hard
failure with the message `Failed to get LOCALAPPDATA` and touch nothing,
but the scanner command `scan_versions` instead silently returns an empty
list, indistinguishable from "nothing installed". -/
theorem missing_localAppData_behaviour (env : Env) (lc cb : Bool)
    (h : env.localAppData = none) :
    (applyProtection env).1 =
      { success := false, error := some "Failed to get LOCALAPPDATA", logs := [] } ∧
    (applyProtection env).2 = [] ∧
    (applyProtectionWithOptions env lc cb).1 =
      { success := false, error := some "Failed to get LOCALAPPDATA", logs := [] } ∧
    (applyProtectionWithOptions env lc cb).2 = [] ∧
    scannerScanVersions env = [] := by
  unfold applyProtection applyProtectionWithOptions scannerScanVersions
  rw [h]
  simp

/-- C9 witness: the amended behaviour at the concrete environment with the
variable removed. -/
theorem missing_localAppData_behaviour_witness :
    (applyProtection { baseEnv with localAppData := none }).1 =
      { success := false, error := some "Failed to get LOCALAPPDATA", logs := [] } ∧
    (applyProtection { baseEnv with localAppData := none }).2 = [] ∧
    (applyProtectionWithOptions { baseEnv with localAppData := none } true true).1 =
      { success := false, error := some "Failed to get LOCALAPPDATA", logs := [] } ∧
    (applyProtectionWithOptions { baseEnv with localAppData := none } true true).2 = [] ∧
    scannerScanVersions { baseEnv with localAppData := none } = [] :=
  missing_localAppData_behaviour { baseEnv with localAppData := none } true true rfl

/-! ## Claim C10 — the cache-cleaning outcome never decides the run -/

theorem deleteLoop_cacheResult_congr (env : Env) (c : ProtectionResult)
    (paths : List String) :
    deleteLoop { env with cacheResult := c } paths = deleteLoop env paths := by
  induction paths with
  | nil => rfl
  | cons p rest ih =>
    rw [deleteLoop, deleteLoop, ih]

theorem deleteVersions_cacheResult_congr (env : Env) (c : ProtectionResult)
    (paths : List String) :
    deleteVersions { env with cacheResult := c } paths = deleteVersions env paths := by
  unfold deleteVersions
  rw [deleteLoop_cacheResult_congr]

/-- C10: in `run_full_protection` the cache-cleaning step's outcome never
determines the run's terminal state — replacing the cache step's `success`
flag and `error` (keeping its logs) leaves the entire result, including
the terminal state and the remaining stages' actions, unchanged; and when
cache cleaning is enabled and the run reaches it, the cache step's logs
are appended into the shared log. -/
theorem runFullProtection_cache_outcome_ignored (env : Env)
    (params : ProtectionParams) (s : Bool) (e : Option String) :
    (runFullProtection
        { env with cacheResult :=
            { success := s, error := e, logs := env.cacheResult.logs } } params =
      runFullProtection env params) ∧
    (params.cleanCache = true → env.isCapcutRunning = false →
      (deleteVersions env params.versionsToDelete).1.success = true →
      ∃ pre post,
        (runFullProtection env params).1.logs =
          pre ++ env.cacheResult.logs ++ post) := by
  constructor
  · unfold runFullProtection
    rw [deleteVersions_cacheResult_congr]
    rfl
  · intro hcc hrun hd
    unfold runFullProtection
    rw [hrun, hcc]
    dsimp only
    simp only [hd, Bool.not_true, Bool.false_eq_true, if_false, if_true]
    by_cases hopts : (params.lockConfig || params.createBlockers) = true
    · rw [if_pos hopts]
      by_cases hp : (applyProtectionWithOptions env
          params.lockConfig params.createBlockers).1.success
      · simp only [hp, Bool.not_true, Bool.false_eq_true, if_false]
        exact ⟨["Checking system state...", "[OK] No running instances"] ++
          (deleteVersions env params.versionsToDelete).1.logs ++
          ["Cleaning cache directories..."],
          (applyProtectionWithOptions env
            params.lockConfig params.createBlockers).1.logs,
          by simp⟩
      · simp only [Bool.of_not_eq_true hp, Bool.not_false, if_true]
        exact ⟨["Checking system state...", "[OK] No running instances"] ++
          (deleteVersions env params.versionsToDelete).1.logs ++
          ["Cleaning cache directories..."],
          (applyProtectionWithOptions env
            params.lockConfig params.createBlockers).1.logs,
          by simp⟩
    · rw [if_neg hopts]
      exact ⟨["Checking system state...", "[OK] No running instances"] ++
        (deleteVersions env params.versionsToDelete).1.logs ++
        ["Cleaning cache directories..."],
        ["Skipping protection (all options disabled)"],
        by simp⟩

/-- C10 witness: a failing cache cleaner changes nothing about the run's
result, and the cache logs appear inside the shared log. -/
theorem runFullProtection_cache_outcome_ignored_witness :
    (runFullProtection
        { baseEnv with cacheResult :=
            { success := false, error := some "cache dir locked",
              logs := ["[!] cache dir locked"] } }
        ⟨[], true, false, false⟩ =
      runFullProtection
        { baseEnv with cacheResult :=
            { success := true, error := none, logs := ["[!] cache dir locked"] } }
        ⟨[], true, false, false⟩) ∧
    (∃ pre post,
      (runFullProtection
          { baseEnv with cacheResult :=
              { success := true, error := none, logs := ["[!] cache dir locked"] } }
          ⟨[], true, false, false⟩).1.logs =
        pre ++ ["[!] cache dir locked"] ++ post) :=
  ⟨(runFullProtection_cache_outcome_ignored
      { baseEnv with cacheResult :=
          { success := true, error := none, logs := ["[!] cache dir locked"] } }
      ⟨[], true, false, false⟩ false (some "cache dir locked")).1,
   (runFullProtection_cache_outcome_ignored
      { baseEnv with cacheResult :=
          { success := true, error := none, logs := ["[!] cache dir locked"] } }
      ⟨[], true, false, false⟩ false (some "cache dir locked")).2 rfl rfl (by decide)⟩
